import Mathlib

/-!
# Verification of the `biomech_simlab` notebook's load-stepping driver

Shallow embedding of the computational structure of `src/biomech_simlab.ipynb`:
the neo-Hookean load-stepping loop (cell-29), the cardiac-benchmark pressure
loop (cell-43), the mesh-refinement benchmark `refine_benchmark` (cell-45),
and the point samplers `get_stress` / `get_disp` (cell-4).

The FEniCS nonlinear solve (`solve(G == 0, u, bcs, J=dG)`) is an external
collaborator: it is modelled as an abstract function from the current value of
the boundary parameter and the current displacement dof vector to either a
converged dof vector (`some`) or a non-convergence failure (`none`, which in
Python surfaces as an uncaught exception).  Displacement dof vectors are
`List ℚ`; real arithmetic of the notebook is modelled over `ℚ`.
-/

/-- A displacement dof vector (`u.vector().get_local()`). -/
abbrev Dofs := List ℚ

/-- The external nonlinear solve: given the scalar boundary-load parameter
just assigned and the current displacement field (the initial guess), return
the converged field, or `none` for solver non-convergence (which the Python
`solve` raises as an uncaught exception). -/
abbrev Solver := ℚ → Dofs → Option Dofs

/-- Abstract measurement `get_stress(Z, P)` / `get_disp(V, u)` taken from the
current solution field after a successful solve. -/
abbrev Measure := Dofs → ℚ

/-- Errors a run of the notebook cell can raise: `ZeroDivisionError` from
`max_disp / n_steps`, or the solver's non-convergence exception. -/
inductive SimError where
  | zeroDivision
  | nonConvergence
deriving DecidableEq

/-- The durable state of the neo-Hookean traction problem around cell-29:
mesh resolution (`nx, ny, nz` of the `BoxMesh`), the Lagrange degrees of the
function spaces `V` and `Z`, the material parameters of `W_neohook`, the
boundary `Constant` `r` (its three components), the displacement field `u`,
and the two result lists `disp_neo` / `stress_neo`. -/
structure SimState where
  mesh : ℕ × ℕ × ℕ
  degV : ℕ
  degZ : ℕ
  mu : ℚ
  lmbda : ℚ
  r : ℚ × ℚ × ℚ
  u : Dofs
  disp_neo : List ℚ
  stress_neo : List ℚ
deriving DecidableEq

/-- One invocation of `solve` inside the load-stepping loop: the load that
`r` was assigned just before the call, the displacement field passed in as
initial guess, and the outcome (`some` converged field, or `none`). -/
structure SolveCall where
  load : ℚ
  guess : Dofs
  result : Option Dofs
deriving DecidableEq

/-- The body of the cell-29 `for` loop, run over the remaining values of the
loop index `i` (source: `for i in range(n_steps)`), instrumented with the
trace of `solve` invocations.  Per step the source does:
`r.assign(Constant((increment*(i+1),0.0,0.0)))`, then
`solve(G == 0, u, bcs, J=dG)` (initial guess: the current `u`), then
`disp_neo.append(increment*(i+1))` and `stress_neo.append(get_stress(Z,P))`.
A solver failure raises, aborting the whole loop. -/
def runStepsTr (sol : Solver) (m : Measure) (inc : ℚ) :
    List ℕ → SimState → Except SimError SimState × List SolveCall
  | [], s => (Except.ok s, [])
  | i :: rest, s =>
    match sol (inc * ((i : ℚ) + 1)) s.u with
    | none =>
        (Except.error SimError.nonConvergence,
         [⟨inc * ((i : ℚ) + 1), s.u, none⟩])
    | some u2 =>
        let pr := runStepsTr sol m inc rest
          { s with r := (inc * ((i : ℚ) + 1), 0, 0), u := u2,
                   disp_neo := s.disp_neo ++ [inc * ((i : ℚ) + 1)],
                   stress_neo := s.stress_neo ++ [m u2] }
        (pr.1, ⟨inc * ((i : ℚ) + 1), s.u, some u2⟩ :: pr.2)

/-- Cell-29 as a whole, with the notebook literals `n_steps = 10` and
`max_disp = 10.0` lifted to parameters.  In source order: reset the solution
(`u.vector().set_local(zeros)` with `zeros = np.zeros_like(...)`), compute
`increment = max_disp / n_steps` (a Python float division, which raises
`ZeroDivisionError` when `n_steps = 0`), initialise `disp_neo = [0]` and
`stress_neo = [0]`, then run the loop over `range(n_steps)`. -/
def loadSteppingRun (sol : Solver) (m : Measure) (n_steps : ℕ) (max_disp : ℚ)
    (s : SimState) : Except SimError (SimState × List SolveCall) :=
  let s0 : SimState := { s with u := List.replicate s.u.length 0 }
  if n_steps = 0 then Except.error SimError.zeroDivision
  else
    let pr := runStepsTr sol m (max_disp / (n_steps : ℚ)) (List.range n_steps)
        { s0 with disp_neo := [0], stress_neo := [0] }
    match pr.1 with
    | Except.ok s2 => Except.ok (s2, pr.2)
    | Except.error e => Except.error e

/-- Final state of a completed run (junk state on failure). -/
def runState (r : Except SimError (SimState × List SolveCall)) : SimState :=
  match r with
  | Except.ok p => p.1
  | Except.error _ =>
      ⟨(0, 0, 0), 0, 0, 0, 0, (0, 0, 0), [], [], []⟩

/-- Trace of solver calls of a completed run (empty on failure). -/
def runTrace (r : Except SimError (SimState × List SolveCall)) :
    List SolveCall :=
  match r with
  | Except.ok p => p.2
  | Except.error _ => []

/-- A solver that always converges, returning the guess unchanged (a possible
behaviour of the external solve, e.g. when the new load equals the old). -/
def trivSolver : Solver := fun _ u => some u

/-- A measurement that always reads `0`. -/
def zeroMeasure : Measure := fun _ => 0

/-- A solver that converges for loads `≤ 1` and diverges beyond. -/
def smallLoadSolver : Solver := fun load u => if load ≤ 1 then some u else none

/-- A concrete pre-cell-29 state (`nx = 20, ny = nz = 2`, degree-1 spaces,
neo-Hookean `mu = 1.0, lmbda = 10.0`, `r = (1,0,0)` from cell-18), with a
three-dof stand-in displacement vector. -/
def initState : SimState :=
  { mesh := (20, 2, 2), degV := 1, degZ := 1, mu := 1, lmbda := 10,
    r := (1, 0, 0), u := [0, 0, 0], disp_neo := [], stress_neo := [] }

/-- One iteration of the cell-43 cardiac-benchmark loop as observable from
outside: the pressure value reported by the progress `print`
(`total_force/steps*(i+1)`), and the value the `pressure` `Constant`
actually holds when `solve` is invoked. -/
structure Cell43Call where
  printed : ℚ
  pressure : ℚ
deriving DecidableEq

/-- The cell-43 `for` loop (`for i in range(steps)`).  Its body prints the
progress message, then executes the bare expression statement
`None  # update the pressure` — which evaluates to `None` and changes
nothing — and then calls `solve`, which therefore sees the `pressure`
`Constant` with whatever value `p` it already had.  Carries the pressure
value `p` and the displacement field `u`, and records one `Cell43Call` per
iteration. -/
def cell43Loop (sol : Solver) (total_force : ℚ) (steps : ℕ) :
    List ℕ → ℚ → Dofs → Option (ℚ × Dofs) × List Cell43Call
  | [], p, u => (some (p, u), [])
  | i :: rest, p, u =>
    match sol p u with
    | none => (none, [⟨total_force / (steps : ℚ) * ((i : ℚ) + 1), p⟩])
    | some u2 =>
        let pr := cell43Loop sol total_force steps rest p u2
        (pr.1, ⟨total_force / (steps : ℚ) * ((i : ℚ) + 1), p⟩ :: pr.2)

/-- Cell-43 as a whole: reset `u` to zeros, set `total_force = 0.004` and
`steps = 10`, and run the loop; the `pressure` `Constant` still holds the
`0.0` it was given in cell-41 (`pressure = Constant(0.0)`). -/
def cell43 (sol : Solver) (u : Dofs) : Option (ℚ × Dofs) × List Cell43Call :=
  cell43Loop sol (4 / 1000) 10 (List.range 10) 0 (List.replicate u.length 0)

/-- State threaded through the `refine_benchmark` load-stepping loop
(cell-45): the `pressure` `Constant`, the displacement field of the rebuilt
problem, and the `pressures` / `disp` result lists. -/
structure BenchState where
  pressure : ℚ
  u : Dofs
  pressures : List ℚ
  disp : List ℚ
deriving DecidableEq

/-- The `refine_benchmark` `for` loop (`steps = 10` in the source): per
iteration `current_pressure = total_force/steps*(i+1)` — reading the
notebook-global `total_force`, not the function's local `total_pressure` —
then `pressure.assign(current_pressure)`, `solve` (which sees the newly
assigned pressure), `pressures.append(current_pressure)` and
`disp.append(get_disp(V,u))`. -/
def benchLoop (sol : Solver) (getd : Measure) (total_force : ℚ) :
    List ℕ → BenchState → Option BenchState
  | [], b => some b
  | i :: rest, b =>
    match sol (total_force / 10 * ((i : ℚ) + 1)) b.u with
    | none => none
    | some u2 =>
        benchLoop sol getd total_force rest
          { pressure := total_force / 10 * ((i : ℚ) + 1), u := u2,
            pressures := b.pressures ++ [total_force / 10 * ((i : ℚ) + 1)],
            disp := b.disp ++ [getd u2] }

/-- `refine_benchmark(nx, ny, nz)` from cell-45.  `sol` and `getd` abstract
the nonlinear solve and `get_disp(V, u)` for the problem rebuilt on the
`(nx, ny, nz)` `BoxMesh` (vector P1 space: `3·(nx+1)·(ny+1)·(nz+1)` dofs,
`u` starting as the zero `Function`).  `total_force` is the notebook
GLOBAL read inside the loop (assigned `0.004` in cell-43);
`total_pressure` is the function's LOCAL variable (assigned the literal
`0.004` in the body and never read afterwards), lifted to a parameter to
express that its value is irrelevant.  Returns `(disp, pressures)`. -/
def refine_benchmark (sol : Solver) (getd : Measure) (total_force : ℚ)
    (total_pressure : ℚ) (nx ny nz : ℕ) : Option (List ℚ × List ℚ) :=
  (benchLoop sol getd total_force (List.range 10)
      { pressure := 0,
        u := List.replicate (3 * (nx + 1) * (ny + 1) * (nz + 1)) 0,
        pressures := [0], disp := [0] }).map (fun b => (b.disp, b.pressures))

/-- A dof coordinate `(x, y, z)`. -/
abbrev Vec3 := ℚ × ℚ × ℚ

/-- Squared Euclidean distance between two coordinates.  The source calls
`np.linalg.norm(coords - pos, axis=1)` (Euclidean norm); `t ↦ t²` is
strictly monotone on nonnegative reals, so the index of the first minimum
of the norms is the index of the first minimum of the squared norms, which
stays inside `ℚ`. -/
def sqDist (a b : Vec3) : ℚ :=
  (a.1 - b.1) ^ 2 + (a.2.1 - b.2.1) ^ 2 + (a.2.2 - b.2.2) ^ 2

/-- `np.argmin`: the index of the first occurrence of the minimum value
(`0` on the empty list, on which NumPy instead raises `ValueError`). -/
def argminQ : List ℚ → ℕ
  | [] => 0
  | x :: xs =>
    match xs[argminQ xs]? with
    | none => 0
    | some v => if x ≤ v then 0 else argminQ xs + 1

/-- `get_stress(Z, P, pos, component)` (cell-4): `coords` are the `Z` dof
coordinates (`Z.tabulate_dof_coordinates()[::9]`), `P_nodes` the projected
stress reshaped to rows of 9; returns entry `component` of the row at the
dof whose coordinate is nearest `pos`.  `none` models the NumPy errors
(`argmin` on an empty array, or an out-of-range index). -/
def get_stress (coords : List Vec3) (P_nodes : List (List ℚ)) (pos : Vec3)
    (component : ℕ) : Option ℚ :=
  if coords = [] then none
  else
    (P_nodes[argminQ (coords.map (fun c => sqDist c pos))]?).bind
      (fun row => row[component]?)

/-- `get_disp(V, u, pos, component)` (cell-4): `coords` are the `V` dof
coordinates (`V.tabulate_dof_coordinates()[::3]`), `disp` the displacement
vector reshaped to rows of 3; returns entry `component` of the row at the
dof whose coordinate is nearest `pos`. -/
def get_disp (coords : List Vec3) (disp : List (List ℚ)) (pos : Vec3)
    (component : ℕ) : Option ℚ :=
  if coords = [] then none
  else
    (disp[argminQ (coords.map (fun c => sqDist c pos))]?).bind
      (fun row => row[component]?)


/-!
## Lemmas about the instrumented loop
-/

/-- The loop writes only `r`, `u`, `disp_neo` and `stress_neo`: a completed
run leaves the mesh, the function-space degrees and the material parameters
exactly as they were. -/
theorem runStepsTr_frame (sol : Solver) (m : Measure) (inc : ℚ) :
    ∀ (steps : List ℕ) (s s' : SimState),
      (runStepsTr sol m inc steps s).1 = Except.ok s' →
      s'.mesh = s.mesh ∧ s'.degV = s.degV ∧ s'.degZ = s.degZ ∧
        s'.mu = s.mu ∧ s'.lmbda = s.lmbda := by
  intro steps
  induction steps with
  | nil =>
      intro s s' h
      simp only [runStepsTr, Except.ok.injEq] at h
      subst h
      exact ⟨rfl, rfl, rfl, rfl, rfl⟩
  | cons i rest ih =>
      intro s s' h
      cases hsol : sol (inc * ((i : ℚ) + 1)) s.u with
      | none => simp [runStepsTr, hsol] at h
      | some u2 =>
          simp only [runStepsTr, hsol] at h
          have h5 := ih _ s' h
          simpa using h5

/-- A completed run appends exactly the scheduled loads to `disp_neo`, and
one measurement per step to `stress_neo`. -/
theorem runStepsTr_lists (sol : Solver) (m : Measure) (inc : ℚ) :
    ∀ (steps : List ℕ) (s s' : SimState),
      (runStepsTr sol m inc steps s).1 = Except.ok s' →
      s'.disp_neo = s.disp_neo ++ steps.map (fun i : ℕ => inc * ((i : ℚ) + 1)) ∧
        s'.stress_neo.length = s.stress_neo.length + steps.length := by
  intro steps
  induction steps with
  | nil =>
      intro s s' h
      simp only [runStepsTr, Except.ok.injEq] at h
      subst h
      simp
  | cons i rest ih =>
      intro s s' h
      cases hsol : sol (inc * ((i : ℚ) + 1)) s.u with
      | none => simp [runStepsTr, hsol] at h
      | some u2 =>
          simp only [runStepsTr, hsol] at h
          obtain ⟨h1, h2⟩ := ih _ s' h
          constructor
          · simpa using h1
          · simp at h2
            simp [h2]
            omega

/-- A completed run issues one solver call per scheduled step, in order, at
the scheduled loads. -/
theorem runStepsTr_trace_ok (sol : Solver) (m : Measure) (inc : ℚ) :
    ∀ (steps : List ℕ) (s s' : SimState),
      (runStepsTr sol m inc steps s).1 = Except.ok s' →
      ((runStepsTr sol m inc steps s).2).map (fun c => c.load) =
        steps.map (fun i : ℕ => inc * ((i : ℚ) + 1)) := by
  intro steps
  induction steps with
  | nil => intro s s' _; simp [runStepsTr]
  | cons i rest ih =>
      intro s s' h
      cases hsol : sol (inc * ((i : ℚ) + 1)) s.u with
      | none => simp [runStepsTr, hsol] at h
      | some u2 =>
          simp only [runStepsTr, hsol] at h ⊢
          simp only [List.map_cons, List.map]
          exact congrArg (List.cons (inc * ((i : ℚ) + 1))) (ih _ s' h)

/-- The first solver call of the loop takes the incoming displacement field
as its initial guess. -/
theorem runStepsTr_head_guess (sol : Solver) (m : Measure) (inc : ℚ) :
    ∀ (steps : List ℕ) (s : SimState) (c : SolveCall),
      ((runStepsTr sol m inc steps s).2)[0]? = some c → c.guess = s.u := by
  intro steps
  cases steps with
  | nil => intro s c h; simp [runStepsTr] at h
  | cons i rest =>
      intro s c h
      cases hsol : sol (inc * ((i : ℚ) + 1)) s.u with
      | none =>
          simp only [runStepsTr, hsol, List.getElem?_cons_zero,
            Option.some.injEq] at h
          subst h; rfl
      | some u2 =>
          simp only [runStepsTr, hsol, List.getElem?_cons_zero,
            Option.some.injEq] at h
          subst h; rfl

/-- Warm-start chaining: in the call trace, each solver call's initial guess
is the converged result of the immediately preceding call — nothing touches
the displacement field between the end of one solve and the start of the
next. -/
theorem runStepsTr_chain (sol : Solver) (m : Measure) (inc : ℚ) :
    ∀ (steps : List ℕ) (s : SimState) (j : ℕ) (cj cj' : SolveCall),
      ((runStepsTr sol m inc steps s).2)[j]? = some cj →
      ((runStepsTr sol m inc steps s).2)[j + 1]? = some cj' →
      cj.result = some cj'.guess := by
  intro steps
  induction steps with
  | nil => intro s j cj cj' h1 _; simp [runStepsTr] at h1
  | cons i rest ih =>
      intro s j cj cj' h1 h2
      cases hsol : sol (inc * ((i : ℚ) + 1)) s.u with
      | none =>
          simp only [runStepsTr, hsol] at h2
          rw [List.getElem?_cons_succ] at h2
          simp at h2
      | some u2 =>
          simp only [runStepsTr, hsol] at h1 h2
          cases j with
          | zero =>
              rw [List.getElem?_cons_zero, Option.some.injEq] at h1
              rw [List.getElem?_cons_succ] at h2
              subst h1
              have hg := runStepsTr_head_guess sol m inc rest _ cj' h2
              simpa using hg.symm
          | succ k =>
              rw [List.getElem?_cons_succ] at h1 h2
              exact ih _ k cj cj' h1 h2

/-- Failure propagation: if the `j`-th solver call of the loop fails, the
whole loop fails with the non-convergence error, that call is the last one
made (`j + 1` calls in total), and the calls made are exactly the first
`j + 1` scheduled loads, each attempted once — no retry, no step-size
reduction, no partial result. -/
theorem runStepsTr_fail_spec (sol : Solver) (m : Measure) (inc : ℚ) :
    ∀ (steps : List ℕ) (s : SimState) (j : ℕ) (cj : SolveCall),
      ((runStepsTr sol m inc steps s).2)[j]? = some cj →
      cj.result = none →
      (runStepsTr sol m inc steps s).1 = Except.error SimError.nonConvergence ∧
        ((runStepsTr sol m inc steps s).2).length = j + 1 ∧
        ((runStepsTr sol m inc steps s).2).map (fun c => c.load) =
          (steps.map (fun i : ℕ => inc * ((i : ℚ) + 1))).take (j + 1) := by
  intro steps
  induction steps with
  | nil => intro s j cj h1 _; simp [runStepsTr] at h1
  | cons i rest ih =>
      intro s j cj h1 hres
      cases hsol : sol (inc * ((i : ℚ) + 1)) s.u with
      | none =>
          simp only [runStepsTr, hsol] at h1 ⊢
          cases j with
          | zero => simp
          | succ k =>
              rw [List.getElem?_cons_succ] at h1
              simp at h1
      | some u2 =>
          simp only [runStepsTr, hsol] at h1 ⊢
          cases j with
          | zero =>
              rw [List.getElem?_cons_zero, Option.some.injEq] at h1
              subst h1
              simp at hres
          | succ k =>
              rw [List.getElem?_cons_succ] at h1
              obtain ⟨e1, e2, e3⟩ := ih _ k cj h1 hres
              refine ⟨e1, ?_, ?_⟩
              · simpa using e2
              · simp only [List.map_cons, List.take]
                exact congrArg (List.cons (inc * ((i : ℚ) + 1))) e3

/-- The loop body assigns `r` before the first solve, so the loop's behaviour
on a non-empty step list is independent of the incoming value of `r`. -/
theorem runStepsTr_r_indep (sol : Solver) (m : Measure) (inc : ℚ)
    (i : ℕ) (rest : List ℕ) (mesh : ℕ × ℕ × ℕ) (degV degZ : ℕ) (mu lmbda : ℚ)
    (r1 r2 : ℚ × ℚ × ℚ) (u : Dofs) (d st : List ℚ) :
    runStepsTr sol m inc (i :: rest) ⟨mesh, degV, degZ, mu, lmbda, r1, u, d, st⟩ =
      runStepsTr sol m inc (i :: rest) ⟨mesh, degV, degZ, mu, lmbda, r2, u, d, st⟩ := by
  cases hsol : sol (inc * ((i : ℚ) + 1)) u with
  | none => simp [runStepsTr, hsol]
  | some u2 => simp [runStepsTr, hsol]

/-- The only error the loop itself can raise is solver non-convergence. -/
theorem runStepsTr_error_kind (sol : Solver) (m : Measure) (inc : ℚ) :
    ∀ (steps : List ℕ) (s : SimState) (e : SimError),
      (runStepsTr sol m inc steps s).1 = Except.error e →
      e = SimError.nonConvergence := by
  intro steps
  induction steps with
  | nil => intro s e h; simp [runStepsTr] at h
  | cons i rest ih =>
      intro s e h
      cases hsol : sol (inc * ((i : ℚ) + 1)) s.u with
      | none =>
          simp only [runStepsTr, hsol, Except.error.injEq] at h
          exact h.symm
      | some u2 =>
          simp only [runStepsTr, hsol] at h
          exact ih _ e h

/-!
## Claim theorems
-/

/-- **C1 (amended).** For every step count `n ≥ 1` and every *positive*
target load `L`, a completed run of the cell-29 continuation loop visits
exactly the `n` strictly increasing loads `L·1/n, …, L·n/n`, and records
`disp_neo` / `stress_neo` sequences of length `n + 1` whose first entry is
the zero-load point; in particular for `L = 10`, `n = 10` the recorded load
list is `[0,1,…,10]`.  (The original claim, quantified over *every* target
load `L`, fails at `L = 0`: see the counterexample theorem.) -/
theorem neo_continuation_load_schedule (sol : Solver) (m : Measure)
    (n : ℕ) (L : ℚ) (s : SimState) (hn : 1 ≤ n) (hL : 0 < L)
    (hok : (loadSteppingRun sol m n L s).isOk = true) :
    (runTrace (loadSteppingRun sol m n L s)).map (fun c => c.load) =
        (List.range n).map (fun i : ℕ => L * ((i : ℚ) + 1) / n) ∧
      ((runTrace (loadSteppingRun sol m n L s)).map
          (fun c => c.load)).Pairwise (· < ·) ∧
      (runState (loadSteppingRun sol m n L s)).disp_neo =
        0 :: (List.range n).map (fun i : ℕ => L * ((i : ℚ) + 1) / n) ∧
      (runState (loadSteppingRun sol m n L s)).disp_neo.length = n + 1 ∧
      (runState (loadSteppingRun sol m n L s)).stress_neo.length = n + 1 ∧
      (runState (loadSteppingRun sol m n L s)).disp_neo.head? = some 0 ∧
      (n = 10 → L = 10 →
        (runState (loadSteppingRun sol m n L s)).disp_neo =
          [0, 1, 2, 3, 4, 5, 6, 7, 8, 9, 10]) := by
  have hn0 : n ≠ 0 := by omega
  have hmap : (List.range n).map (fun i : ℕ => L / n * ((i : ℚ) + 1)) =
      (List.range n).map (fun i : ℕ => L * ((i : ℚ) + 1) / n) := by
    simp only [div_mul_eq_mul_div]
  simp only [loadSteppingRun, hn0, if_false] at hok ⊢
  split at hok
  case h_2 e heq => simp [Except.isOk, Except.toBool] at hok
  case h_1 s2 heq =>
      have hres1 : (runStepsTr sol m (L / (n : ℚ)) (List.range n)
          { s with u := List.replicate s.u.length 0,
                   disp_neo := [0], stress_neo := [0] }).1 = Except.ok s2 := heq
      obtain ⟨hdisp, hstress⟩ := runStepsTr_lists sol m (L / (n : ℚ)) _ _ _ hres1
      have htr := runStepsTr_trace_ok sol m (L / (n : ℚ)) _ _ _ hres1
      simp only [runState, runTrace]
      have hloads : (runStepsTr sol m (L / (n : ℚ)) (List.range n)
          { s with u := List.replicate s.u.length 0,
                   disp_neo := [0], stress_neo := [0] }).2.map (fun c => c.load) =
          (List.range n).map (fun i : ℕ => L * ((i : ℚ) + 1) / n) := by
        rw [htr, hmap]
      have hdisp2 : s2.disp_neo =
          0 :: (List.range n).map (fun i : ℕ => L * ((i : ℚ) + 1) / n) := by
        rw [hdisp, hmap]
        simp
      have hpos : 0 < L / (n : ℚ) := by
        apply div_pos hL
        exact_mod_cast Nat.pos_of_ne_zero hn0
      have hpair : ((List.range n).map
          (fun i : ℕ => L * ((i : ℚ) + 1) / n)).Pairwise (· < ·) := by
        rw [← hmap]
        refine List.Pairwise.map _ ?_ (List.pairwise_lt_range n)
        intro a b hab
        have hcast : ((a : ℚ) + 1) < ((b : ℚ) + 1) := by
          have : (a : ℚ) < (b : ℚ) := by exact_mod_cast hab
          linarith
        exact mul_lt_mul_of_pos_left hcast hpos
      refine ⟨hloads, ?_, hdisp2, ?_, ?_, ?_, ?_⟩
      · rw [hloads]; exact hpair
      · simp [hdisp2]
      · have h9 := hstress; simp at h9; omega
      · simp [hdisp2]
      · intro h10 hL10
        subst h10
        subst hL10
        rw [hdisp2]
        norm_num [List.range_succ]
/-- **C1 counterexample.** The claim quantifies over *every* target load
`L`; at `L = 0` (step count 2, with a solver that accepts every step) the
run completes but the two visited load values `0, 0` are not strictly
increasing, so the claim as stated fails. -/
theorem neo_continuation_load_schedule_cex :
    (loadSteppingRun trivSolver zeroMeasure 2 0 initState).isOk = true ∧
      ¬ ((runTrace (loadSteppingRun trivSolver zeroMeasure 2 0 initState)).map
          (fun c => c.load)).Pairwise (· < ·) := by
  constructor
  · norm_num [loadSteppingRun, runStepsTr, trivSolver, initState,
      List.range_succ, Except.isOk, Except.toBool]
  · norm_num [loadSteppingRun, runStepsTr, runTrace, trivSolver, initState,
      List.range_succ, List.pairwise_cons]

/-- Witness for the amended C1 at the concrete scenario `n = 10`, `L = 10`:
the recorded load list is exactly `[0,1,…,10]` with 11 entries. -/
theorem neo_continuation_load_schedule_witness :
    1 ≤ 10 ∧ (0 : ℚ) < 10 ∧
      (runState (loadSteppingRun trivSolver zeroMeasure 10 10
          initState)).disp_neo = [0, 1, 2, 3, 4, 5, 6, 7, 8, 9, 10] ∧
      (runState (loadSteppingRun trivSolver zeroMeasure 10 10
          initState)).disp_neo.length = 10 + 1 :=
  ⟨by norm_num, by norm_num,
    (neo_continuation_load_schedule trivSolver zeroMeasure 10 10 initState
      (by norm_num) (by norm_num)
      (by norm_num [loadSteppingRun, runStepsTr, trivSolver, initState,
        List.range_succ, Except.isOk, Except.toBool])).2.2.2.2.2.2
      rfl rfl,
    (neo_continuation_load_schedule trivSolver zeroMeasure 10 10 initState
      (by norm_num) (by norm_num)
      (by norm_num [loadSteppingRun, runStepsTr, trivSolver, initState,
        List.range_succ, Except.isOk, Except.toBool])).2.2.2.1⟩

/-- **C2.** Warm starting: in the cell-29 loop (`for i in range(n_steps)`),
the displacement field supplied as initial guess to the solve of each step
is exactly the converged output of the previous step's solve — between the
end of one solve and the start of the next, nothing modifies the
displacement field. -/
theorem warm_start (sol : Solver) (m : Measure) (inc : ℚ) (n : ℕ)
    (s : SimState) (j : ℕ) (cj cj' : SolveCall)
    (h1 : ((runStepsTr sol m inc (List.range n) s).2)[j]? = some cj)
    (h2 : ((runStepsTr sol m inc (List.range n) s).2)[j + 1]? = some cj') :
    cj.result = some cj'.guess :=
  runStepsTr_chain sol m inc (List.range n) s j cj cj' h1 h2

/-- Witness for C2: two consecutive solver calls of a concrete run, the
second call's guess being the first call's converged output. -/
theorem warm_start_witness :
    (SolveCall.mk 1 [0, 0, 0] (some [0, 0, 0])).result =
      some (SolveCall.mk 2 [0, 0, 0] (some [0, 0, 0])).guess :=
  warm_start trivSolver zeroMeasure 1 2 initState 0
    ⟨1, [0, 0, 0], some [0, 0, 0]⟩ ⟨2, [0, 0, 0], some [0, 0, 0]⟩
    (by norm_num [runStepsTr, trivSolver, initState, List.range_succ])
    (by norm_num [runStepsTr, trivSolver, initState, List.range_succ])

/-- **C3.** If the solve of any step fails to converge, the whole loop
fails with the non-convergence error, that call is the last one made, and
the calls made are exactly the first scheduled loads, each attempted once:
no retry, no step-size reduction, no partial-result recovery, and the
remaining steps are never executed. -/
theorem failure_aborts (sol : Solver) (m : Measure) (inc : ℚ) (n : ℕ)
    (s : SimState) (j : ℕ) (cj : SolveCall)
    (h1 : ((runStepsTr sol m inc (List.range n) s).2)[j]? = some cj)
    (h2 : cj.result = none) :
    (runStepsTr sol m inc (List.range n) s).1 =
        Except.error SimError.nonConvergence ∧
      ((runStepsTr sol m inc (List.range n) s).2).length = j + 1 ∧
      ((runStepsTr sol m inc (List.range n) s).2).map (fun c => c.load) =
        ((List.range n).map (fun i : ℕ => inc * ((i : ℚ) + 1))).take (j + 1) :=
  runStepsTr_fail_spec sol m inc (List.range n) s j cj h1 h2

/-- Witness for C3: a solver that diverges at the second load aborts the
three-step loop after exactly two calls. -/
theorem failure_aborts_witness :
    (runStepsTr smallLoadSolver zeroMeasure 1 (List.range 3) initState).1 =
        Except.error SimError.nonConvergence ∧
      ((runStepsTr smallLoadSolver zeroMeasure 1 (List.range 3)
          initState).2).length = 1 + 1 ∧
      ((runStepsTr smallLoadSolver zeroMeasure 1 (List.range 3)
          initState).2).map (fun c => c.load) =
        ((List.range 3).map (fun i : ℕ => 1 * ((i : ℚ) + 1))).take (1 + 1) :=
  failure_aborts smallLoadSolver zeroMeasure 1 3 initState 1
    ⟨2, [0, 0, 0], none⟩
    (by norm_num [runStepsTr, smallLoadSolver, initState, List.range_succ])
    rfl

/-- **C4.** Re-running the full continuation (reset to zero displacement,
then the load-stepping loop) with identical parameters is insensitive to
everything the previous run mutated: starting from any displacement field
of the same dof count and any values of `r`, `disp_neo`, `stress_neo`, the
run produces identical output (same final state, same trace, same recorded
sequences). -/
theorem rerun_deterministic (sol : Solver) (m : Measure) (n : ℕ) (L : ℚ)
    (s : SimState) (u' : Dofs) (r' : ℚ × ℚ × ℚ) (d' st' : List ℚ)
    (hlen : u'.length = s.u.length) :
    loadSteppingRun sol m n L
        { s with u := u', r := r', disp_neo := d', stress_neo := st' } =
      loadSteppingRun sol m n L s := by
  by_cases hn : n = 0
  · simp [loadSteppingRun, hn]
  · simp only [loadSteppingRun, hn, if_false]
    rw [hlen]
    cases hr : List.range n with
    | nil => exact absurd (List.range_eq_nil.mp hr) hn
    | cons i rest =>
        rw [runStepsTr_r_indep sol m (L / (n : ℚ)) i rest s.mesh s.degV s.degZ
          s.mu s.lmbda r' s.r (List.replicate s.u.length 0) [0] [0]]

/-- Witness for C4 at concrete inputs. -/
theorem rerun_deterministic_witness :
    loadSteppingRun trivSolver zeroMeasure 3 5
        { initState with u := [1, 2, 3], r := (9, 9, 9),
                         disp_neo := [4], stress_neo := [6] } =
      loadSteppingRun trivSolver zeroMeasure 3 5 initState :=
  rerun_deterministic trivSolver zeroMeasure 3 5 initState
    [1, 2, 3] (9, 9, 9) [4] [6] rfl

/-- **C5.** Step count `n = 0` is rejected with an error: the Python float
division `increment = max_disp / n_steps` raises `ZeroDivisionError` before
the loop, so the driver never silently returns the trivial one-point
(zero-load-only) sequence; and for every positive step count the driver is
not rejected over its step count (the `zeroDivision` error is impossible —
the only other failure is solver non-convergence). -/
theorem zero_steps_rejected (sol : Solver) (m : Measure) (L : ℚ)
    (s : SimState) :
    loadSteppingRun sol m 0 L s = Except.error SimError.zeroDivision ∧
      ∀ n : ℕ, 1 ≤ n →
        loadSteppingRun sol m n L s ≠ Except.error SimError.zeroDivision := by
  constructor
  · simp [loadSteppingRun]
  · intro n hn
    have hn0 : n ≠ 0 := by omega
    simp only [loadSteppingRun, hn0, if_false]
    split
    · simp
    · rename_i e heq
      have he := runStepsTr_error_kind sol m (L / (n : ℚ)) _ _ _ heq
      subst he
      simp

/-- Witness for C5: with one step the driver is not rejected. -/
theorem zero_steps_rejected_witness :
    loadSteppingRun trivSolver zeroMeasure 1 7 initState ≠
      Except.error SimError.zeroDivision :=
  (zero_steps_rejected trivSolver zeroMeasure 7 initState).2 1 (by norm_num)

/-- **C6.** Frame property of one continuation run: mesh, function-space
degrees and material parameters are the same after the loop as before it
(the loop writes only `r`, `u`, `disp_neo`, `stress_neo`). -/
theorem loop_frame (sol : Solver) (m : Measure) (n : ℕ) (L : ℚ)
    (s : SimState) (hok : (loadSteppingRun sol m n L s).isOk = true) :
    (runState (loadSteppingRun sol m n L s)).mesh = s.mesh ∧
      (runState (loadSteppingRun sol m n L s)).degV = s.degV ∧
      (runState (loadSteppingRun sol m n L s)).degZ = s.degZ ∧
      (runState (loadSteppingRun sol m n L s)).mu = s.mu ∧
      (runState (loadSteppingRun sol m n L s)).lmbda = s.lmbda := by
  by_cases hn0 : n = 0
  · rw [hn0] at hok
    simp [loadSteppingRun, Except.isOk, Except.toBool] at hok
  · simp only [loadSteppingRun, hn0, if_false] at hok ⊢
    split at hok
    next s2 heq =>
        have hf := runStepsTr_frame sol m (L / (n : ℚ)) _ _ _ heq
        simp only [runState]
        simpa using hf
    next e heq => simp [Except.isOk, Except.toBool] at hok

/-- Witness for C6 at concrete inputs. -/
theorem loop_frame_witness :
    (runState (loadSteppingRun trivSolver zeroMeasure 1 7 initState)).mesh =
        initState.mesh ∧
      (runState (loadSteppingRun trivSolver zeroMeasure 1 7
          initState)).degV = initState.degV ∧
      (runState (loadSteppingRun trivSolver zeroMeasure 1 7
          initState)).degZ = initState.degZ ∧
      (runState (loadSteppingRun trivSolver zeroMeasure 1 7
          initState)).mu = initState.mu ∧
      (runState (loadSteppingRun trivSolver zeroMeasure 1 7
          initState)).lmbda = initState.lmbda :=
  loop_frame trivSolver zeroMeasure 1 7 initState
    (by norm_num [loadSteppingRun, runStepsTr, trivSolver, initState,
      List.range_succ, Except.isOk, Except.toBool])

/-- Every iteration of the cell-43 loop invokes `solve` with the pressure
`Constant` still holding the value it entered the loop with. -/
theorem cell43Loop_pressure (sol : Solver) (tf : ℚ) (st : ℕ) :
    ∀ (l : List ℕ) (p : ℚ) (u : Dofs),
      ((cell43Loop sol tf st l p u).2).map (fun c => c.pressure) =
        List.replicate ((cell43Loop sol tf st l p u).2).length p := by
  intro l
  induction l with
  | nil => intro p u; simp [cell43Loop]
  | cons i rest ih =>
      intro p u
      cases hsol : sol p u with
      | none => simp [cell43Loop, hsol]
      | some u2 => simp [cell43Loop, hsol, List.replicate_succ, ih p u2]

/-- The progress messages of the cell-43 loop report the scheduled pressure
ramp `total_force/steps*(i+1)`, one per executed iteration. -/
theorem cell43Loop_printed (sol : Solver) (tf : ℚ) (st : ℕ) :
    ∀ (l : List ℕ) (p : ℚ) (u : Dofs),
      ((cell43Loop sol tf st l p u).2).map (fun c => c.printed) =
        (l.map (fun i : ℕ => tf / (st : ℚ) * ((i : ℚ) + 1))).take
          ((cell43Loop sol tf st l p u).2).length := by
  intro l
  induction l with
  | nil => intro p u; simp [cell43Loop]
  | cons i rest ih =>
      intro p u
      cases hsol : sol p u with
      | none => simp [cell43Loop, hsol]
      | some u2 =>
          simp only [cell43Loop, hsol, List.map_cons, List.length_cons,
            List.take_succ_cons]
          rw [ih p u2]

/-- A completed cell-43 loop leaves the pressure unchanged and ran one
iteration per scheduled step. -/
theorem cell43Loop_ok (sol : Solver) (tf : ℚ) (st : ℕ) :
    ∀ (l : List ℕ) (p : ℚ) (u : Dofs) (p2 : ℚ) (u2 : Dofs),
      (cell43Loop sol tf st l p u).1 = some (p2, u2) →
      p2 = p ∧ ((cell43Loop sol tf st l p u).2).length = l.length := by
  intro l
  induction l with
  | nil =>
      intro p u p2 u2 h
      simp only [cell43Loop, Option.some.injEq, Prod.mk.injEq] at h
      exact ⟨h.1.symm, by simp [cell43Loop]⟩
  | cons i rest ih =>
      intro p u p2 u2 h
      cases hsol : sol p u with
      | none => simp [cell43Loop, hsol] at h
      | some u3 =>
          simp only [cell43Loop, hsol] at h ⊢
          obtain ⟨e1, e2⟩ := ih p u3 p2 u2 h
          exact ⟨e1, by simp [e2]⟩

/-- **C9.** In the cell-43 cardiac-benchmark loop the statement that should
update the pressure is the bare placeholder expression `None`, so the
`pressure` `Constant` is `0.0` at every one of the solves — each iteration
solves the identical zero-pressure problem — even though the printed
progress messages report the strictly increasing ramp
`total_force/steps*(i+1)`; a completed run performs all 10 solves at
pressure `0`. -/
theorem cell43_zero_pressure (sol : Solver) (u : Dofs) :
    ((cell43 sol u).2).map (fun c => c.pressure) =
        List.replicate ((cell43 sol u).2).length 0 ∧
      ((cell43 sol u).2).map (fun c => c.printed) =
        ((List.range 10).map
            (fun i : ℕ => 4 / 1000 / 10 * ((i : ℚ) + 1))).take
          ((cell43 sol u).2).length ∧
      (((cell43 sol u).2).map (fun c => c.printed)).Pairwise (· < ·) ∧
      ∀ (p2 : ℚ) (u2 : Dofs), (cell43 sol u).1 = some (p2, u2) →
        p2 = 0 ∧ ((cell43 sol u).2).length = 10 := by
  have hprinted : ((cell43 sol u).2).map (fun c => c.printed) =
      ((List.range 10).map
          (fun i : ℕ => 4 / 1000 / 10 * ((i : ℚ) + 1))).take
        ((cell43 sol u).2).length := by
    have h := cell43Loop_printed sol (4 / 1000) 10 (List.range 10) 0
      (List.replicate u.length 0)
    simpa [cell43] using h
  refine ⟨?_, hprinted, ?_, ?_⟩
  · exact cell43Loop_pressure sol (4 / 1000) 10 (List.range 10) 0 _
  · have hbase : ((List.range 10).map
        (fun i : ℕ => 4 / 1000 / 10 * ((i : ℚ) + 1))).Pairwise (· < ·) := by
      refine List.Pairwise.map _ ?_ (List.pairwise_lt_range 10)
      intro a b hab
      have hcast : ((a : ℚ) + 1) < ((b : ℚ) + 1) := by
        have : (a : ℚ) < (b : ℚ) := by exact_mod_cast hab
        linarith
      have hpos : (0 : ℚ) < 4 / 1000 / 10 := by norm_num
      exact mul_lt_mul_of_pos_left hcast hpos
    rw [hprinted]
    exact List.Pairwise.sublist (List.take_sublist _ _) hbase
  · intro p2 u2 h
    exact cell43Loop_ok sol (4 / 1000) 10 (List.range 10) 0
      (List.replicate u.length 0) p2 u2 h

/-- Witness for C9: a concrete completed run performs its 10 solves, all at
zero pressure. -/
theorem cell43_zero_pressure_witness :
    (0 : ℚ) = 0 ∧ ((cell43 trivSolver [0, 0, 0]).2).length = 10 :=
  (cell43_zero_pressure trivSolver [0, 0, 0]).2.2.2 0 [0, 0, 0]
    (by norm_num [cell43, cell43Loop, trivSolver, List.range_succ,
      List.replicate])

/-- A completed `refine_benchmark` loop appends exactly the scheduled
pressures — computed from its `total_force` argument — to the `pressures`
list. -/
theorem benchLoop_ok (sol : Solver) (getd : Measure) (tf : ℚ) :
    ∀ (l : List ℕ) (b b2 : BenchState),
      benchLoop sol getd tf l b = some b2 →
      b2.pressures =
        b.pressures ++ l.map (fun i : ℕ => tf / 10 * ((i : ℚ) + 1)) := by
  intro l
  induction l with
  | nil =>
      intro b b2 h
      simp only [benchLoop, Option.some.injEq] at h
      subst h
      simp
  | cons i rest ih =>
      intro b b2 h
      cases hsol : sol (tf / 10 * ((i : ℚ) + 1)) b.u with
      | none => simp [benchLoop, hsol] at h
      | some u2 =>
          simp only [benchLoop, hsol] at h
          have h2 := ih _ b2 h
          simpa using h2

/-- **C8.** For every mesh resolution `(nx, ny, nz)`, `refine_benchmark`
computes the per-step pressure from the notebook-global `total_force`
(`current_pressure = total_force/steps*(i+1)`), not from its own local
variable `total_pressure`, which is assigned and never read: changing the
local's value has no effect on the result, and a successful call returns
the pressures list `[0, total_force·1/10, …, total_force·10/10]`. -/
theorem refine_benchmark_global_force (sol : Solver) (getd : Measure)
    (tf tp tp' : ℚ) (nx ny nz : ℕ) :
    refine_benchmark sol getd tf tp nx ny nz =
        refine_benchmark sol getd tf tp' nx ny nz ∧
      ∀ (d p : List ℚ),
        refine_benchmark sol getd tf tp nx ny nz = some (d, p) →
        p = 0 :: (List.range 10).map (fun i : ℕ => tf * ((i : ℚ) + 1) / 10) := by
  constructor
  · rfl
  · intro d p h
    simp only [refine_benchmark, Option.map_eq_some'] at h
    obtain ⟨b2, hb2, hmk⟩ := h
    have hp := benchLoop_ok sol getd tf (List.range 10) _ _ hb2
    have hp2 : b2.pressures = p := by
      have := congrArg Prod.snd hmk
      simpa using this
    rw [← hp2, hp]
    simp [div_mul_eq_mul_div]

/-- Witness for C8: a completed call at target force 10 on the coarsest
mesh returns the pressures list `[0, 1, …, 10]`. -/
theorem refine_benchmark_global_force_witness :
    ([0, 1, 2, 3, 4, 5, 6, 7, 8, 9, 10] : List ℚ) =
      0 :: (List.range 10).map (fun i : ℕ => 10 * ((i : ℚ) + 1) / 10) :=
  (refine_benchmark_global_force trivSolver zeroMeasure 10 5 7 0 0 0).2
    [0, 0, 0, 0, 0, 0, 0, 0, 0, 0, 0] [0, 1, 2, 3, 4, 5, 6, 7, 8, 9, 10]
    (by norm_num [refine_benchmark, benchLoop, trivSolver, zeroMeasure,
      List.range_succ, List.replicate])

/-- `argminQ` returns an in-range index of a nonempty list whose value is a
minimum of the list, and the first such index: every earlier entry is
strictly larger. -/
theorem argminQ_spec : ∀ (l : List ℚ), l ≠ [] →
    ∃ w, l[argminQ l]? = some w ∧
      (∀ (j : ℕ) (v : ℚ), l[j]? = some v → w ≤ v) ∧
      (∀ (j : ℕ) (v : ℚ), j < argminQ l → l[j]? = some v → w < v) := by
  intro l
  induction l with
  | nil => intro h; exact absurd rfl h
  | cons x xs ih =>
      intro _
      rcases hv : xs[argminQ xs]? with _ | v
      · have hxs : xs = [] := by
          by_contra hxs
          obtain ⟨w, hw, -, -⟩ := ih hxs
          rw [hv] at hw
          exact Option.noConfusion hw
        subst hxs
        have harg : argminQ [x] = 0 := by simp [argminQ]
        refine ⟨x, by simp [harg], ?_, ?_⟩
        · intro j v hj
          cases j with
          | zero =>
              rw [List.getElem?_cons_zero, Option.some.injEq] at hj
              exact le_of_eq hj
          | succ k => simp at hj
        · intro j v hjlt hj
          rw [harg] at hjlt
          exact absurd hjlt (Nat.not_lt_zero j)
      · have hne : xs ≠ [] := by
          intro hxs
          rw [hxs] at hv
          simp at hv
        obtain ⟨w', hw', hmin', hfirst'⟩ := ih hne
        have hvw : w' = v := Option.some.inj (hw'.symm.trans hv)
        subst hvw
        by_cases hxv : x ≤ w'
        · have harg : argminQ (x :: xs) = 0 := by simp [argminQ, hv, hxv]
          refine ⟨x, by simp [harg], ?_, ?_⟩
          · intro j v0 hj
            cases j with
            | zero =>
                rw [List.getElem?_cons_zero, Option.some.injEq] at hj
                exact le_of_eq hj
            | succ k =>
                rw [List.getElem?_cons_succ] at hj
                exact le_trans hxv (hmin' k v0 hj)
          · intro j v0 hjlt hj
            rw [harg] at hjlt
            exact absurd hjlt (Nat.not_lt_zero j)
        · have hwx : w' < x := lt_of_not_le hxv
          have harg : argminQ (x :: xs) = argminQ xs + 1 := by
            simp [argminQ, hv, hxv]
          refine ⟨w', ?_, ?_, ?_⟩
          · rw [harg, List.getElem?_cons_succ]
            exact hv
          · intro j v0 hj
            cases j with
            | zero =>
                rw [List.getElem?_cons_zero, Option.some.injEq] at hj
                rw [← hj]
                exact le_of_lt hwx
            | succ k =>
                rw [List.getElem?_cons_succ] at hj
                exact hmin' k v0 hj
          · intro j v0 hjlt hj
            rw [harg] at hjlt
            cases j with
            | zero =>
                rw [List.getElem?_cons_zero, Option.some.injEq] at hj
                rw [← hj]
                exact hwx
            | succ k =>
                rw [List.getElem?_cons_succ] at hj
                exact hfirst' k v0 (Nat.lt_of_succ_lt_succ hjlt) hj

/-- **C10.** The point samplers are total over query positions: whenever the
mesh has dofs (`coords` nonempty, one value row per dof, components in
range), then for every query position — inside or outside the mesh —
`get_disp` and `get_stress` return `some` value, namely the stored entry of
the value row at the dof index produced by `argmin` over all dof
coordinates; that index's coordinate minimises the (squared) Euclidean
distance to the position over all dof coordinates, and the returned value
is a stored nodal value, never an interpolation. -/
theorem samplers_nearest_dof (coords : List Vec3) (rows3 rows9 : List (List ℚ))
    (pos : Vec3) (c3 c9 : ℕ)
    (hne : coords ≠ [])
    (hlen3 : rows3.length = coords.length)
    (hlen9 : rows9.length = coords.length)
    (hrow3 : ∀ row ∈ rows3, c3 < row.length)
    (hrow9 : ∀ row ∈ rows9, c9 < row.length) :
    ((get_disp coords rows3 pos c3).isSome = true ∧
        get_disp coords rows3 pos c3 =
          (rows3[argminQ (coords.map (fun c => sqDist c pos))]?).bind
            (fun row => row[c3]?) ∧
        (∀ y, get_disp coords rows3 pos c3 = some y →
          ∃ row ∈ rows3, y ∈ row)) ∧
      ((get_stress coords rows9 pos c9).isSome = true ∧
        get_stress coords rows9 pos c9 =
          (rows9[argminQ (coords.map (fun c => sqDist c pos))]?).bind
            (fun row => row[c9]?) ∧
        (∀ y, get_stress coords rows9 pos c9 = some y →
          ∃ row ∈ rows9, y ∈ row)) ∧
      (∀ ck, coords[argminQ (coords.map (fun c => sqDist c pos))]? = some ck →
        ∀ (j : ℕ) (cj : Vec3), coords[j]? = some cj →
          sqDist ck pos ≤ sqDist cj pos) := by
  have hdne : coords.map (fun c => sqDist c pos) ≠ [] := by
    simpa using hne
  obtain ⟨w, hw, hmin, -⟩ :=
    argminQ_spec (coords.map (fun c => sqDist c pos)) hdne
  have hk : argminQ (coords.map (fun c => sqDist c pos)) <
      (coords.map (fun c => sqDist c pos)).length := by
    by_contra hk
    rw [List.getElem?_eq_none (le_of_not_lt hk)] at hw
    exact Option.noConfusion hw
  rw [List.length_map] at hk
  have hk3 : argminQ (coords.map (fun c => sqDist c pos)) < rows3.length := by
    rw [hlen3]; exact hk
  have hk9 : argminQ (coords.map (fun c => sqDist c pos)) < rows9.length := by
    rw [hlen9]; exact hk
  have hr3 : rows3[argminQ (coords.map (fun c => sqDist c pos))]? =
      some (rows3.get ⟨argminQ (coords.map (fun c => sqDist c pos)), hk3⟩) :=
    List.getElem?_eq_getElem hk3
  have hr9 : rows9[argminQ (coords.map (fun c => sqDist c pos))]? =
      some (rows9.get ⟨argminQ (coords.map (fun c => sqDist c pos)), hk9⟩) :=
    List.getElem?_eq_getElem hk9
  have hm3 : rows3.get ⟨argminQ (coords.map (fun c => sqDist c pos)), hk3⟩ ∈
      rows3 := List.getElem_mem hk3
  have hm9 : rows9.get ⟨argminQ (coords.map (fun c => sqDist c pos)), hk9⟩ ∈
      rows9 := List.getElem_mem hk9
  have hc3 := hrow3 _ hm3
  have hc9 := hrow9 _ hm9
  have hval3 : get_disp coords rows3 pos c3 =
      some ((rows3.get ⟨argminQ (coords.map (fun c => sqDist c pos)),
        hk3⟩).get ⟨c3, hc3⟩) := by
    rw [get_disp, if_neg hne, hr3]
    simp [List.getElem?_eq_getElem hc3]
  have hval9 : get_stress coords rows9 pos c9 =
      some ((rows9.get ⟨argminQ (coords.map (fun c => sqDist c pos)),
        hk9⟩).get ⟨c9, hc9⟩) := by
    rw [get_stress, if_neg hne, hr9]
    simp [List.getElem?_eq_getElem hc9]
  refine ⟨⟨?_, ?_, ?_⟩, ⟨?_, ?_, ?_⟩, ?_⟩
  · rw [hval3]; rfl
  · rw [get_disp, if_neg hne]
  · intro y hy
    rw [hval3, Option.some.injEq] at hy
    exact ⟨_, hm3, hy ▸ List.get_mem _ _ hc3⟩
  · rw [hval9]; rfl
  · rw [get_stress, if_neg hne]
  · intro y hy
    rw [hval9, Option.some.injEq] at hy
    exact ⟨_, hm9, hy ▸ List.get_mem _ _ hc9⟩
  · intro ck hck j cj hcj
    have hwck : w = sqDist ck pos := by
      rw [List.getElem?_map, hck] at hw
      exact (Option.some.inj hw).symm
    have hdj : (coords.map (fun c => sqDist c pos))[j]? =
        some (sqDist cj pos) := by
      rw [List.getElem?_map, hcj]
      rfl
    have := hmin j (sqDist cj pos) hdj
    rw [hwck] at this
    exact this

/-- Witness for C10: a query position well outside the beam still yields a
value from both samplers, and the `argmin` dof (the node at `(2,0,0)`) is
at least as close to the query point as the other node. -/
theorem samplers_nearest_dof_witness :
    (get_disp [(0, 0, 0), (2, 0, 0)] [[1, 2, 3], [4, 5, 6]]
        (5, 7, -1) 2).isSome = true ∧
      (get_stress [(0, 0, 0), (2, 0, 0)] [[10, 11], [12, 13]]
          (5, 7, -1) 1).isSome = true ∧
      sqDist (2, 0, 0) (5, 7, -1) ≤ sqDist (0, 0, 0) (5, 7, -1) := by
  have h := samplers_nearest_dof [(0, 0, 0), (2, 0, 0)]
    [[1, 2, 3], [4, 5, 6]] [[10, 11], [12, 13]] (5, 7, -1) 2 1
    (by simp) rfl rfl (by norm_num) (by norm_num)
  exact ⟨h.1.1, h.2.1.1,
    h.2.2 (2, 0, 0) (by norm_num [argminQ, sqDist]) 0 (0, 0, 0) rfl⟩
